import Mathlib

/-!
Verification of the `zdx` Harbor adapter (`src/tools/harbor/zdx_agent.py`).

The adapter builds one shell command that launches the external `zdx`
binary with a user instruction, forwarding selected credential variables
and optional configuration read from the ambient environment.

The embedding below models:
* Python's `shlex.quote` (`shlexQuote`),
* the command construction in `ZdxAgent.create_run_agent_commands`,
* the no-op hook `ZdxAgent.populate_context_post_run`,
* a conservative model of POSIX shell field splitting (`splitStage`),
  used to state round-trip properties of the quoted command line, and
* the POSIX rule that a pipeline's exit status is that of its last
  command (`pipelineExitStatus`).
-/

/-- The single-quote character, written by code point. -/
def sqc : Char := '\u0027'

/-- The double-quote character, written by code point. -/
def dqc : Char := '\u0022'

/-- The backtick character, written by code point. -/
def btc : Char := '\u0060'

/-- Characters Python's `shlex.quote` leaves unquoted: ASCII word
characters (`re.ASCII` semantics of word characters) plus the punctuation
at-sign, percent, plus, equals, colon, comma, dot, slash and dash.
Mirrors the regular expression in `shlex._find_unsafe`. -/
def isSafeChar (c : Char) : Bool :=
  (('a' ≤ c && c ≤ 'z') || ('A' ≤ c && c ≤ 'Z') || ('0' ≤ c && c ≤ '9')
    || c = '_' || c = '@' || c = '%' || c = '+' || c = '='
    || c = ':' || c = ',' || c = '.' || c = '/' || c = '-' : Bool)

/-- Character-level effect of Python's `s.replace("'", "'\"'\"'")`:
a single quote becomes close-quote, double-quoted quote, reopen-quote. -/
def escSq (c : Char) : List Char :=
  if c = sqc then [sqc, dqc, sqc, dqc, sqc] else [c]

/-- `replSquotes l` is the character list of `s.replace("'", "'\"'\"'")`. -/
def replSquotes (l : List Char) : List Char :=
  l.flatMap escSq

/-- Embedding of Python's `shlex.quote`: the empty string becomes `''`;
a non-empty string of safe characters is returned unchanged; any other
string is wrapped in single quotes with embedded quotes escaped. -/
def shlexQuote (s : String) : String :=
  if s.data = [] then String.mk [sqc, sqc]
  else if s.data.all isSafeChar then s
  else String.mk (sqc :: (replSquotes s.data ++ [sqc]))

/-- Embedding of Python's `sep.join(parts)`. -/
def joinWith (sep : String) : List String → String
  | [] => ""
  | [a] => a
  | a :: rest => a ++ sep ++ joinWith sep rest

/-- The ambient environment: `os.environ.get` as a partial map. -/
abbrev Env := String → Option String

/-- The command descriptor handed to the Harbor executor
(`ExecInput(command=..., cwd=..., env=...)`); the environment mapping is
an association list in insertion order, as a Python dict. -/
structure ExecInput where
  command : String
  cwd : String
  env : List (String × String)
deriving DecidableEq

/-- The four credential variables the adapter forwards, in source order. -/
def credentialKeys : List String :=
  ["ANTHROPIC_API_KEY", "OPENAI_API_KEY", "OPENROUTER_API_KEY", "GEMINI_API_KEY"]

/-- The credential-forwarding loop: a key is copied through exactly when
`os.environ.get(key)` is a non-empty string (Python truthiness). -/
def buildEnv (e : Env) : List (String × String) :=
  credentialKeys.filterMap fun k =>
    match e k with
    | some v => if v = "" then none else some (k, v)
    | none => none

/-- `root = os.environ.get("ZDX_ROOT", "/app")`. -/
def rootOf (e : Env) : String :=
  (e "ZDX_ROOT").getD "/app"

/-- One conditional `args.extend([flag, value])`: appended exactly when
the environment value is present and non-empty (Python truthiness). -/
def optFlag (flag : String) (v : Option String) : List String :=
  match v with
  | some s => if s = "" then [] else [flag, s]
  | none => []

/-- The argument list built by `create_run_agent_commands` before quoting. -/
def argsOf (e : Env) (instruction : String) : List String :=
  ["/root/.cargo/bin/zdx", "--no-thread", "--root", rootOf e, "exec", "-p", instruction]
    ++ optFlag "--model" (e "ZDX_MODEL")
    ++ optFlag "--thinking" (e "ZDX_THINKING")
    ++ optFlag "--tools" (e "ZDX_TOOLS")

/-- The command string: each argument `shlex.quote`d, joined with single
spaces, then piped into `tee /logs/agent/zdx.txt`. -/
def commandOf (e : Env) (instruction : String) : String :=
  joinWith " " ((argsOf e instruction).map shlexQuote) ++ " | tee /logs/agent/zdx.txt"

/-- Embedding of `ZdxAgent.create_run_agent_commands`. -/
def create_run_agent_commands (e : Env) (instruction : String) : List ExecInput :=
  [⟨commandOf e instruction, rootOf e, buildEnv e⟩]

/-- Embedding of `ZdxAgent.populate_context_post_run`: the body is a bare
`return` (value `None`, modelled as `Unit`), so in state-passing form the
context is returned untouched. -/
def populate_context_post_run {α : Type} (context : α) : α × Unit :=
  (context, ())

/-- POSIX shell semantics (the executor runs the command through a
shell): without `pipefail`, the exit status of a pipeline is the exit
status of its last command. -/
def pipelineExitStatus (statuses : List Nat) : Option Nat :=
  statuses.getLast?

/-! ## A conservative model of POSIX shell field splitting

`splitStage` splits one pipeline stage of a command line into words,
handling unquoted whitespace, single quotes, double quotes and the `|`
operator.  It is conservative: any character whose shell treatment
involves expansion or further syntax (`$`, backtick, backslash escapes,
globbing, comments, operators other than `|`, ...) makes it return
`none` rather than guess.  On every input where it returns `some`, it
agrees with POSIX field splitting, so a `some` result states exactly
what a real shell would pass to `execve`. -/

/-- Classification of a character seen outside quotes. -/
inductive CharClass where
  | wsp | pipe | squo | dquo | lit | bad
deriving DecidableEq

/-- Classify a character outside quotes.  Only characters that are
certainly ordinary in a POSIX shell count as `lit`; everything whose
meaning this model does not capture is `bad`. -/
def classify (c : Char) : CharClass :=
  if c = ' ' ∨ c = '\t' then .wsp
  else if c = '|' then .pipe
  else if c = sqc then .squo
  else if c = dqc then .dquo
  else if isSafeChar c then .lit
  else .bad

/-- Parser mode: outside quotes, inside single quotes, inside double
quotes. -/
inductive SMode where
  | norm | insq | indq
deriving DecidableEq

/-- Prepend the finished word `acc` to the words of a parse result. -/
def pushWord (acc : List Char) :
    Option (List String × List Char) → Option (List String × List Char)
  | some p => some (String.mk acc :: p.1, p.2)
  | none => none

/-- Split one pipeline stage into words.  `acc` is the current word,
`st` records whether a word has started (so two adjacent quotes yield an
empty word).  Returns the words of the stage and the characters after
the `|` terminating it (empty when the stage ends the input). -/
def splitStage : SMode → List Char → Bool → List Char → Option (List String × List Char)
  | .norm, acc, st, [] => some (if st then [String.mk acc] else [], [])
  | .norm, acc, st, c :: cs =>
    match classify c with
    | .wsp =>
      if st then pushWord acc (splitStage .norm [] false cs)
      else splitStage .norm [] false cs
    | .pipe => some ((if st then [String.mk acc] else []), cs)
    | .squo => splitStage .insq acc true cs
    | .dquo => splitStage .indq acc true cs
    | .lit => splitStage .norm (acc ++ [c]) true cs
    | .bad => none
  | .insq, _, _, [] => none
  | .insq, acc, _, c :: cs =>
    if c = sqc then splitStage .norm acc true cs
    else splitStage .insq (acc ++ [c]) true cs
  | .indq, _, _, [] => none
  | .indq, acc, _, c :: cs =>
    if c = dqc then splitStage .norm acc true cs
    else if c = '$' ∨ c = btc ∨ c = '\\' then none
    else splitStage .indq (acc ++ [c]) true cs

/-! ## Parsing the constructed command line -/

theorem mk_data (s : String) : String.mk s.data = s := rfl

theorem classify_of_safe {c : Char} (h : isSafeChar c = true) : classify c = .lit := by
  have h1 : ¬(c = ' ' ∨ c = '\t') := by rintro (rfl | rfl) <;> exact absurd h (by decide)
  have h2 : c ≠ '|' := by rintro rfl; exact absurd h (by decide)
  have h3 : c ≠ sqc := by rintro rfl; exact absurd h (by decide)
  have h4 : c ≠ dqc := by rintro rfl; exact absurd h (by decide)
  simp [classify, h1, h2, h3, h4, h]

theorem step_lit {c : Char} (h : classify c = .lit) (acc : List Char) (st : Bool)
    (cs : List Char) :
    splitStage .norm acc st (c :: cs) = splitStage .norm (acc ++ [c]) true cs := by
  rw [splitStage.eq_2, h]

theorem step_wsp (acc : List Char) (cs : List Char) :
    splitStage .norm acc true (' ' :: cs) =
      pushWord acc (splitStage .norm [] false cs) := rfl

theorem consume_safe (w : List Char) (hw : ∀ c ∈ w, isSafeChar c = true)
    (acc : List Char) (cs : List Char) :
    splitStage .norm acc true (w ++ cs) = splitStage .norm (acc ++ w) true cs := by
  induction w generalizing acc with
  | nil => simp
  | cons c w ih =>
    rw [List.cons_append, step_lit (classify_of_safe (hw c (by simp))),
      ih (fun d hd => hw d (by simp [hd]))]
    simp

theorem splitStage_insq_cons (c : Char) (acc : List Char) (st : Bool) (cs : List Char) :
    splitStage .insq acc st (c :: cs) =
      if c = sqc then splitStage .norm acc true cs
      else splitStage .insq (acc ++ [c]) true cs := rfl

theorem insq_quote_step (acc X : List Char) :
    splitStage .insq acc true (sqc :: dqc :: sqc :: dqc :: sqc :: X) =
      splitStage .insq (acc ++ [sqc]) true X := rfl

theorem insq_body (b : List Char) (acc cs : List Char) :
    splitStage .insq acc true (replSquotes b ++ (sqc :: cs)) =
      splitStage .norm (acc ++ b) true cs := by
  induction b generalizing acc with
  | nil =>
    rw [show replSquotes ([] : List Char) = [] from rfl, List.nil_append,
      List.append_nil]
    rfl
  | cons c b ih =>
    by_cases hc : c = sqc
    · subst hc
      have hr : replSquotes (sqc :: b) = sqc :: dqc :: sqc :: dqc :: sqc :: replSquotes b := by
        simp [replSquotes, escSq]
      rw [hr]
      show splitStage .insq acc true
          (sqc :: dqc :: sqc :: dqc :: sqc :: (replSquotes b ++ (sqc :: cs))) = _
      rw [insq_quote_step, ih]
      simp
    · have hr : replSquotes (c :: b) = c :: replSquotes b := by
        simp [replSquotes, escSq, hc]
      rw [hr]
      show splitStage .insq acc true (c :: (replSquotes b ++ (sqc :: cs))) = _
      rw [splitStage_insq_cons, if_neg hc, ih]
      simp

theorem parse_quoted (s : String) (cs : List Char) :
    splitStage .norm [] false ((shlexQuote s).data ++ (' ' :: cs)) =
      pushWord s.data (splitStage .norm [] false cs) := by
  unfold shlexQuote
  by_cases h0 : s.data = []
  · rw [if_pos h0, h0]
    rfl
  · rw [if_neg h0]
    by_cases hsafe : s.data.all isSafeChar
    · rw [if_pos hsafe]
      obtain ⟨c, w, hcw⟩ : ∃ c w, s.data = c :: w := by
        cases hd : s.data with
        | nil => exact absurd hd h0
        | cons c w => exact ⟨c, w, rfl⟩
      have hall : ∀ d ∈ s.data, isSafeChar d = true := fun d hd =>
        List.all_eq_true.mp hsafe d hd
      conv_lhs => rw [hcw]
      rw [List.cons_append,
        step_lit (classify_of_safe (hall c (by rw [hcw]; simp))),
        consume_safe w (fun d hd => hall d (by rw [hcw]; simp [hd])),
        step_wsp]
      rw [show ([] : List Char) ++ [c] ++ w = c :: w from by simp, ← hcw]
    · rw [if_neg hsafe]
      rw [show (String.mk (sqc :: (replSquotes s.data ++ [sqc]))).data
          = sqc :: (replSquotes s.data ++ [sqc]) from rfl]
      show splitStage .norm [] false
          (sqc :: ((replSquotes s.data ++ [sqc]) ++ (' ' :: cs))) = _
      rw [show splitStage .norm [] false
            (sqc :: ((replSquotes s.data ++ [sqc]) ++ (' ' :: cs)))
          = splitStage .insq [] true ((replSquotes s.data ++ [sqc]) ++ (' ' :: cs))
          from rfl]
      rw [List.append_assoc, List.singleton_append, insq_body, step_wsp]
      rfl

theorem parse_join (l : List String) (hl : l ≠ []) (t : List Char) :
    splitStage .norm [] false ((joinWith " " (l.map shlexQuote)).data ++ (' ' :: t)) =
      (splitStage .norm [] false t).map (fun p => (l ++ p.1, p.2)) := by
  induction l with
  | nil => exact absurd rfl hl
  | cons a l ih =>
    cases l with
    | nil =>
      rw [show ([a].map shlexQuote) = [shlexQuote a] from rfl,
        show joinWith " " [shlexQuote a] = shlexQuote a from rfl,
        parse_quoted]
      cases splitStage .norm [] false t <;> simp [pushWord, mk_data]
    | cons b l' =>
      rw [show ((a :: b :: l').map shlexQuote)
          = shlexQuote a :: ((b :: l').map shlexQuote) from rfl]
      rw [show joinWith " " (shlexQuote a :: ((b :: l').map shlexQuote))
          = shlexQuote a ++ " " ++ joinWith " " ((b :: l').map shlexQuote) from rfl]
      rw [String.data_append, String.data_append]
      rw [show (" " : String).data = [' '] from rfl]
      rw [List.append_assoc, List.append_assoc, List.singleton_append]
      rw [parse_quoted, ih (by simp)]
      cases splitStage .norm [] false t <;> simp [pushWord, mk_data]

theorem parse_tail :
    splitStage .norm [] false ("| tee /logs/agent/zdx.txt" : String).data =
      some ([], (" tee /logs/agent/zdx.txt" : String).data) := rfl

theorem argsOf_ne_nil (e : Env) (i : String) : argsOf e i ≠ [] := by
  simp [argsOf]

theorem parse_commandOf (e : Env) (i : String) :
    splitStage .norm [] false (commandOf e i).data =
      some (argsOf e i, (" tee /logs/agent/zdx.txt" : String).data) := by
  unfold commandOf
  rw [String.data_append]
  rw [show (" | tee /logs/agent/zdx.txt" : String).data
      = ' ' :: ("| tee /logs/agent/zdx.txt" : String).data from rfl]
  rw [parse_join _ (by simp [argsOf]) _, parse_tail]
  simp

/-! ## The environment mapping -/

theorem mem_buildEnv (e : Env) (k v : String) :
    (k, v) ∈ buildEnv e ↔ k ∈ credentialKeys ∧ e k = some v ∧ v ≠ "" := by
  unfold buildEnv
  rw [List.mem_filterMap]
  constructor
  · rintro ⟨a, ha, hfa⟩
    split at hfa
    next w heq =>
      by_cases hw : w = ""
      · rw [if_pos hw] at hfa; simp at hfa
      · rw [if_neg hw] at hfa
        simp at hfa
        obtain ⟨rfl, rfl⟩ := hfa
        exact ⟨ha, heq, hw⟩
    next => simp at hfa
  · rintro ⟨hk, hek, hv⟩
    refine ⟨k, hk, ?_⟩
    rw [hek]
    show (if v = "" then none else some (k, v)) = some (k, v)
    rw [if_neg hv]

/-! ## Sample environments used as concrete inputs -/

/-- The empty ambient environment. -/
def envNone : Env := fun _ => none

/-- An environment whose only binding sets a credential to the empty string. -/
def envEmptyCred : Env := fun k => if k = "ANTHROPIC_API_KEY" then some "" else none

/-- An environment with one non-empty credential binding. -/
def envCredSample : Env := fun k => if k = "ANTHROPIC_API_KEY" then some "sk-test" else none

/-- An environment that overrides the root path only. -/
def envRootSample : Env := fun k => if k = "ZDX_ROOT" then some "/work" else none

/-- The conjectured descriptor for an environment and instruction. -/
def descOf (e : Env) (i : String) : ExecInput :=
  ⟨commandOf e i, rootOf e, buildEnv e⟩

theorem descOf_mem (e : Env) (i : String) : descOf e i ∈ create_run_agent_commands e i :=
  List.mem_singleton.mpr rfl

/-- C8: `create_run_agent_commands` always returns exactly one command
descriptor, for every instruction and ambient environment. -/
theorem C8_single_descriptor (e : Env) (i : String) :
    (create_run_agent_commands e i).length = 1 := rfl

/-- C7: the post-run hook returns the run context unmodified, with the
`None` result (modelled as `Unit`) and no other effect. -/
theorem C7_post_run_noop {α : Type} (context : α) :
    populate_context_post_run context = (context, ()) := rfl

/-- The eight environment variables command construction reads. -/
def relevantKeys : List String :=
  credentialKeys ++ ["ZDX_ROOT", "ZDX_MODEL", "ZDX_THINKING", "ZDX_TOOLS"]

/-- C9: command construction is deterministic and depends only on the
instruction and the eight named environment variables. -/
theorem C9_deterministic (e1 e2 : Env) (i : String)
    (h : ∀ k ∈ relevantKeys, e1 k = e2 k) :
    create_run_agent_commands e1 i = create_run_agent_commands e2 i := by
  have hroot := h "ZDX_ROOT" (by simp [relevantKeys, credentialKeys])
  have hmodel := h "ZDX_MODEL" (by simp [relevantKeys, credentialKeys])
  have hthink := h "ZDX_THINKING" (by simp [relevantKeys, credentialKeys])
  have htools := h "ZDX_TOOLS" (by simp [relevantKeys, credentialKeys])
  have h1 := h "ANTHROPIC_API_KEY" (by simp [relevantKeys, credentialKeys])
  have h2 := h "OPENAI_API_KEY" (by simp [relevantKeys, credentialKeys])
  have h3 := h "OPENROUTER_API_KEY" (by simp [relevantKeys, credentialKeys])
  have h4 := h "GEMINI_API_KEY" (by simp [relevantKeys, credentialKeys])
  have henv : buildEnv e1 = buildEnv e2 := by
    simp only [buildEnv, credentialKeys, List.filterMap_cons, List.filterMap_nil,
      h1, h2, h3, h4]
  simp [create_run_agent_commands, commandOf, argsOf, rootOf, hroot, hmodel,
    hthink, htools, henv]

/-- A witness for C9: two environments agreeing on the eight relevant
variables but differing elsewhere produce identical descriptors. -/
def envIrrelevant : Env := fun k => if k = "HOME" then some "/root" else none

theorem C9_deterministic_witness :
    (∀ k ∈ relevantKeys, envIrrelevant k = envNone k) ∧
    create_run_agent_commands envIrrelevant "x" = create_run_agent_commands envNone "x" :=
  ⟨by decide, C9_deterministic envIrrelevant envNone "x" (by decide)⟩

/-- C1: for every instruction and environment, the command's first
pipeline stage, word-split as a POSIX shell would, is exactly the built
argument list, with the instruction delivered unchanged as the single
word following `-p`. -/
theorem C1_instruction_roundtrip (e : Env) (i : String) :
    ∃ rest, splitStage .norm [] false (commandOf e i).data = some (argsOf e i, rest) ∧
      (argsOf e i)[5]? = some "-p" ∧ (argsOf e i)[6]? = some i := by
  refine ⟨_, parse_commandOf e i, ?_, ?_⟩ <;> simp [argsOf]

/-- C4: the working directory is `/app` when `ZDX_ROOT` is unset and the
given value when set, and in both cases equals the word after `--root`
in the command. -/
theorem C4_working_directory (e : Env) (i : String) (d : ExecInput)
    (hd : d ∈ create_run_agent_commands e i) :
    (e "ZDX_ROOT" = none → d.cwd = "/app") ∧
    (∀ v, e "ZDX_ROOT" = some v → d.cwd = v) ∧
    ∃ rest, splitStage .norm [] false d.command.data = some (argsOf e i, rest) ∧
      (argsOf e i)[2]? = some "--root" ∧ (argsOf e i)[3]? = some d.cwd := by
  obtain rfl := List.mem_singleton.mp hd
  refine ⟨?_, ?_, ⟨_, parse_commandOf e i, by simp [argsOf], by simp [argsOf]⟩⟩
  · intro h; show rootOf e = "/app"; rw [rootOf, h]; rfl
  · intro v h; show rootOf e = v; rw [rootOf, h]; rfl

theorem C4_working_directory_witness :
    descOf envRootSample "x" ∈ create_run_agent_commands envRootSample "x" ∧
    ((envRootSample "ZDX_ROOT" = none → (descOf envRootSample "x").cwd = "/app") ∧
      (∀ v, envRootSample "ZDX_ROOT" = some v → (descOf envRootSample "x").cwd = v) ∧
      ∃ rest, splitStage .norm [] false (descOf envRootSample "x").command.data =
          some (argsOf envRootSample "x", rest) ∧
        (argsOf envRootSample "x")[2]? = some "--root" ∧
        (argsOf envRootSample "x")[3]? = some (descOf envRootSample "x").cwd) :=
  ⟨descOf_mem envRootSample "x",
    C4_working_directory envRootSample "x" _ (descOf_mem envRootSample "x")⟩

/-- The exact command string the spec's worked example requires. -/
def expectedC6 : String :=
  "/root/.cargo/bin/zdx --no-thread --root /app exec -p " ++ String.mk [sqc]
    ++ "fix the bug in main.py" ++ String.mk [sqc] ++ " | tee /logs/agent/zdx.txt"

/-- C6: with the four optional variables unset, the worked example's
instruction yields exactly the spec's command string. -/
theorem C6_example (e : Env) (h1 : e "ZDX_ROOT" = none) (h2 : e "ZDX_MODEL" = none)
    (h3 : e "ZDX_THINKING" = none) (h4 : e "ZDX_TOOLS" = none) :
    (create_run_agent_commands e "fix the bug in main.py").map ExecInput.command
      = [expectedC6] := by
  simp only [create_run_agent_commands, commandOf, argsOf, rootOf, optFlag,
    h1, h2, h3, h4, List.map_cons, List.map_nil, Option.getD_none]
  rfl

theorem C6_example_witness :
    envNone "ZDX_ROOT" = none ∧
    (create_run_agent_commands envNone "fix the bug in main.py").map ExecInput.command
      = [expectedC6] :=
  ⟨rfl, C6_example envNone rfl rfl rfl rfl⟩

/-- C2 counterexample: `ANTHROPIC_API_KEY` set to the empty string is a
set credential variable, yet the returned environment mapping is empty,
so the mapping does not contain every key that was set. -/
theorem C2_counterexample :
    envEmptyCred "ANTHROPIC_API_KEY" = some "" ∧
    (create_run_agent_commands envEmptyCred "x").map ExecInput.env = [[]] :=
  ⟨rfl, by decide⟩

/-- C2 (amended): for every ambient environment, the descriptor's
environment mapping contains a pair exactly when its key is one of the
four credential variables set to that (non-empty) ambient value — so
the mapping holds exactly the credentials set to a non-empty value,
nothing else, and a credential set to the empty string is omitted. -/
theorem C2_env_exact (e : Env) (i : String) (d : ExecInput)
    (hd : d ∈ create_run_agent_commands e i) (k v : String) :
    ((k, v) ∈ d.env ↔ k ∈ credentialKeys ∧ e k = some v ∧ v ≠ "") := by
  obtain rfl := List.mem_singleton.mp hd
  show (k, v) ∈ buildEnv e ↔ _
  exact mem_buildEnv e k v

theorem C2_env_exact_witness :
    descOf envCredSample "x" ∈ create_run_agent_commands envCredSample "x" ∧
    (("ANTHROPIC_API_KEY", "sk-test") ∈ (descOf envCredSample "x").env ↔
      "ANTHROPIC_API_KEY" ∈ credentialKeys ∧
        envCredSample "ANTHROPIC_API_KEY" = some "sk-test" ∧ "sk-test" ≠ "") :=
  ⟨descOf_mem envCredSample "x",
    C2_env_exact envCredSample "x" _ (descOf_mem envCredSample "x")
      "ANTHROPIC_API_KEY" "sk-test"⟩

/-- C10: a credential variable set to the empty string is treated
exactly like an unset one, and the returned environment never contains
an empty-valued entry. -/
theorem C10_empty_credential (e : Env) (i : String) (k : String)
    (hk : k ∈ credentialKeys) (he : e k = some "") :
    create_run_agent_commands e i =
      create_run_agent_commands (fun j => if j = k then none else e j) i ∧
    ∀ d ∈ create_run_agent_commands e i, ∀ k' : String, (k', "") ∉ d.env := by
  constructor
  · fin_cases hk <;>
      simp [create_run_agent_commands, commandOf, argsOf, rootOf, buildEnv,
        credentialKeys, List.filterMap_cons, he]
  · intro d hd k' hmem
    obtain rfl := List.mem_singleton.mp hd
    rw [show (⟨commandOf e i, rootOf e, buildEnv e⟩ : ExecInput).env = buildEnv e
      from rfl, mem_buildEnv] at hmem
    exact hmem.2.2 rfl

/-- An environment whose only binding sets a different credential to the
empty string. -/
def envEmptyCred2 : Env := fun k => if k = "OPENAI_API_KEY" then some "" else none

theorem C10_empty_credential_witness :
    "OPENAI_API_KEY" ∈ credentialKeys ∧
    envEmptyCred2 "OPENAI_API_KEY" = some "" ∧
    (create_run_agent_commands envEmptyCred2 "x" =
      create_run_agent_commands (fun j => if j = "OPENAI_API_KEY" then none else envEmptyCred2 j) "x" ∧
    ∀ d ∈ create_run_agent_commands envEmptyCred2 "x", ∀ k' : String, (k', "") ∉ d.env) :=
  ⟨by decide, rfl,
    C10_empty_credential envEmptyCred2 "x" "OPENAI_API_KEY" (by decide) rfl⟩

/-- C3 counterexample: the built command is a two-stage pipeline ending
in `tee`, and under POSIX pipeline semantics an agent exit status of 2
with a successful `tee` yields overall status 0, not 2 — the pipeline
does not preserve the agent's exit status. -/
theorem C3_counterexample :
    splitStage .norm [] false (commandOf envNone "x").data =
      some (["/root/.cargo/bin/zdx", "--no-thread", "--root", "/app", "exec", "-p", "x"],
        (" tee /logs/agent/zdx.txt" : String).data) ∧
    splitStage .norm [] false (" tee /logs/agent/zdx.txt" : String).data =
      some (["tee", "/logs/agent/zdx.txt"], []) ∧
    pipelineExitStatus [2, 0] = some 0 ∧ pipelineExitStatus [2, 0] ≠ some 2 :=
  ⟨by decide, by decide, rfl, by decide⟩

/-- C3 (amended): every built command ends in the pipeline stage
`tee /logs/agent/zdx.txt`, which duplicates standard output to the
caller and the fixed log file; under POSIX semantics the pipeline's exit
status is that of the last stage (`tee`), not of the agent process. -/
theorem C3_tee_pipeline (e : Env) (i : String) :
    (∃ ws, splitStage .norm [] false (commandOf e i).data =
        some (ws, (" tee /logs/agent/zdx.txt" : String).data)) ∧
    splitStage .norm [] false (" tee /logs/agent/zdx.txt" : String).data =
      some (["tee", "/logs/agent/zdx.txt"], []) ∧
    ∀ agentStatus teeStatus : Nat,
      pipelineExitStatus [agentStatus, teeStatus] = some teeStatus :=
  ⟨⟨argsOf e i, parse_commandOf e i⟩, by decide, fun _ _ => rfl⟩

/-- C5 counterexample: with `ZDX_MODEL` unset, the instruction
`--model` still makes the token `--model` appear in the built command
(as the word following `-p`), so the flag's absence from the command
cannot be promised for every instruction. -/
theorem C5_counterexample :
    envNone "ZDX_MODEL" = none ∧
    splitStage .norm [] false (commandOf envNone "--model").data =
      some (["/root/.cargo/bin/zdx", "--no-thread", "--root", "/app", "exec", "-p", "--model"],
        (" tee /logs/agent/zdx.txt" : String).data) ∧
    "--model" ∈ (["/root/.cargo/bin/zdx", "--no-thread", "--root", "/app", "exec", "-p",
      "--model"] : List String) :=
  ⟨rfl, by decide, by decide⟩

/-- A flag token is in `optFlag g w` only as the flag `g` itself or as
the value `w` carries. -/
theorem not_mem_optFlag {f g : String} {w : Option String}
    (h1 : f ≠ g) (h2 : w ≠ some f) : f ∉ optFlag g w := by
  intro hmem
  cases w with
  | none => simp [optFlag] at hmem
  | some s =>
    by_cases hs : s = ""
    · simp [optFlag, hs] at hmem
    · simp [optFlag, hs] at hmem
      rcases hmem with rfl | rfl
      · exact h1 rfl
      · exact h2 rfl

/-- A word list of the shape `pre ++ [f, v] ++ post` with `f` nowhere
else contains `f` exactly once, with `v` right after it. -/
theorem count_one_of_shape {f v : String} (pre post : List String) {args : List String}
    (hargs : args = pre ++ ([f, v] ++ post))
    (hpre : f ∉ pre) (hpost : f ∉ post) (hfv : f ≠ v) :
    args.count f = 1 ∧ List.IsInfix [f, v] args := by
  subst hargs
  constructor
  · rw [List.count_append, List.count_append,
      List.count_eq_zero.mpr hpre, List.count_eq_zero.mpr hpost]
    simp [List.count_cons, Ne.symm hfv]
  · exact ⟨pre, post, by simp⟩

/-- The three optional flags and the variables that control them. -/
def flagPairs : List (String × String) :=
  [("--model", "ZDX_MODEL"), ("--thinking", "ZDX_THINKING"), ("--tools", "ZDX_TOOLS")]

/-- C5 (amended): provided neither the instruction, nor the root value,
nor another optional value equals a flag token, each optional flag is
absent from the command's words when its variable is unset or empty and
appears exactly once, immediately followed by its value, when the
variable is non-empty. -/
theorem C5_optional_flags (e : Env) (i : String)
    (hne : ∀ f ∈ (["--model", "--thinking", "--tools"] : List String),
      i ≠ f ∧ rootOf e ≠ f ∧ e "ZDX_MODEL" ≠ some f ∧
        e "ZDX_THINKING" ≠ some f ∧ e "ZDX_TOOLS" ≠ some f) :
    ∃ rest, splitStage .norm [] false (commandOf e i).data = some (argsOf e i, rest) ∧
      ∀ fk ∈ flagPairs,
        ((e fk.2 = none ∨ e fk.2 = some "") → fk.1 ∉ argsOf e i) ∧
        ∀ v, e fk.2 = some v → v ≠ "" →
          (argsOf e i).count fk.1 = 1 ∧ List.IsInfix [fk.1, v] (argsOf e i) := by
  obtain ⟨him, hrm, hmm, htm, hlm⟩ := hne "--model" (by simp)
  obtain ⟨hit, hrt, hmt, htt, hlt⟩ := hne "--thinking" (by simp)
  obtain ⟨hil, hrl, hml, htl, hll⟩ := hne "--tools" (by simp)
  have hfixed : ∀ f : String, f ≠ "/root/.cargo/bin/zdx" → f ≠ "--no-thread" →
      f ≠ "--root" → f ≠ "exec" → f ≠ "-p" → rootOf e ≠ f → i ≠ f →
      f ∉ (["/root/.cargo/bin/zdx", "--no-thread", "--root", rootOf e, "exec", "-p", i] :
        List String) := by
    intro f h1 h2 h3 h4 h5 h6 h7 hmem
    simp only [List.mem_cons, List.not_mem_nil, or_false] at hmem
    rcases hmem with h | h | h | h | h | h | h
    · exact h1 h
    · exact h2 h
    · exact h3 h
    · exact h6 h.symm
    · exact h4 h
    · exact h5 h
    · exact h7 h.symm
  refine ⟨_, parse_commandOf e i, ?_⟩
  intro fk hfk
  fin_cases hfk
  · -- "--model"
    constructor
    · intro h hmem
      have : optFlag "--model" (e "ZDX_MODEL") = [] := by
        rcases h with h | h <;> simp [optFlag, h]
      rw [argsOf, this] at hmem
      simp only [List.append_nil, List.mem_append] at hmem
      rcases hmem with (hmem | hmem) | hmem
      · exact hfixed "--model" (by decide) (by decide) (by decide) (by decide)
          (by decide) hrm him hmem
      · exact not_mem_optFlag (by decide) htm hmem
      · exact not_mem_optFlag (by decide) hlm hmem
    · intro v hv hvne
      have hvf : v ≠ "--model" := fun h => hmm (h ▸ hv)
      refine count_one_of_shape ["/root/.cargo/bin/zdx", "--no-thread",
        "--root", rootOf e, "exec", "-p", i]
        (optFlag "--thinking" (e "ZDX_THINKING") ++ optFlag "--tools" (e "ZDX_TOOLS"))
        ?_ ?_ ?_ (Ne.symm hvf)
      · rw [argsOf, hv]
        simp [optFlag, hvne]
      · exact hfixed "--model" (by decide) (by decide) (by decide) (by decide)
          (by decide) hrm him
      · intro hmem
        rcases List.mem_append.mp hmem with hmem | hmem
        · exact not_mem_optFlag (by decide) htm hmem
        · exact not_mem_optFlag (by decide) hlm hmem
  · -- "--thinking"
    constructor
    · intro h hmem
      have : optFlag "--thinking" (e "ZDX_THINKING") = [] := by
        rcases h with h | h <;> simp [optFlag, h]
      rw [argsOf, this] at hmem
      simp only [List.append_nil, List.mem_append] at hmem
      rcases hmem with (hmem | hmem) | hmem
      · exact hfixed "--thinking" (by decide) (by decide) (by decide) (by decide)
          (by decide) hrt hit hmem
      · exact not_mem_optFlag (by decide) hmt hmem
      · exact not_mem_optFlag (by decide) hlt hmem
    · intro v hv hvne
      have hvf : v ≠ "--thinking" := fun h => htt (h ▸ hv)
      refine count_one_of_shape (["/root/.cargo/bin/zdx", "--no-thread",
        "--root", rootOf e, "exec", "-p", i] ++ optFlag "--model" (e "ZDX_MODEL"))
        (optFlag "--tools" (e "ZDX_TOOLS"))
        ?_ ?_ ?_ (Ne.symm hvf)
      · rw [argsOf, hv]
        simp [optFlag, hvne]
      · intro hmem
        rcases List.mem_append.mp hmem with hmem | hmem
        · exact hfixed "--thinking" (by decide) (by decide) (by decide) (by decide)
            (by decide) hrt hit hmem
        · exact not_mem_optFlag (by decide) hmt hmem
      · exact not_mem_optFlag (by decide) hlt
  · -- "--tools"
    constructor
    · intro h hmem
      have : optFlag "--tools" (e "ZDX_TOOLS") = [] := by
        rcases h with h | h <;> simp [optFlag, h]
      rw [argsOf, this] at hmem
      simp only [List.append_nil, List.mem_append] at hmem
      rcases hmem with (hmem | hmem) | hmem
      · exact hfixed "--tools" (by decide) (by decide) (by decide) (by decide)
          (by decide) hrl hil hmem
      · exact not_mem_optFlag (by decide) hml hmem
      · exact not_mem_optFlag (by decide) htl hmem
    · intro v hv hvne
      have hvf : v ≠ "--tools" := fun h => hll (h ▸ hv)
      refine count_one_of_shape (["/root/.cargo/bin/zdx", "--no-thread",
        "--root", rootOf e, "exec", "-p", i] ++ optFlag "--model" (e "ZDX_MODEL")
          ++ optFlag "--thinking" (e "ZDX_THINKING"))
        []
        ?_ ?_ ?_ (Ne.symm hvf)
      · rw [argsOf, hv]
        simp [optFlag, hvne]
      · intro hmem
        rcases List.mem_append.mp hmem with hmem | hmem
        rcases List.mem_append.mp ‹_› with h' | h'
        · exact hfixed "--tools" (by decide) (by decide) (by decide) (by decide)
            (by decide) hrl hil h'
        · exact not_mem_optFlag (by decide) hml h'
        · exact not_mem_optFlag (by decide) htl hmem
      · exact List.not_mem_nil _

/-- An environment setting all three optional variables. -/
def envAllOpts : Env := fun k =>
  if k = "ZDX_MODEL" then some "claude"
  else if k = "ZDX_THINKING" then some "high"
  else if k = "ZDX_TOOLS" then some "bash,edit"
  else none

theorem C5_optional_flags_witness :
    (∀ f ∈ (["--model", "--thinking", "--tools"] : List String),
      "x" ≠ f ∧ rootOf envAllOpts ≠ f ∧ envAllOpts "ZDX_MODEL" ≠ some f ∧
        envAllOpts "ZDX_THINKING" ≠ some f ∧ envAllOpts "ZDX_TOOLS" ≠ some f) ∧
    (∃ rest, splitStage .norm [] false (commandOf envAllOpts "x").data =
        some (argsOf envAllOpts "x", rest) ∧
      ∀ fk ∈ flagPairs,
        ((envAllOpts fk.2 = none ∨ envAllOpts fk.2 = some "") →
          fk.1 ∉ argsOf envAllOpts "x") ∧
        ∀ v, envAllOpts fk.2 = some v → v ≠ "" →
          (argsOf envAllOpts "x").count fk.1 = 1 ∧
            List.IsInfix [fk.1, v] (argsOf envAllOpts "x")) :=
  ⟨by decide, C5_optional_flags envAllOpts "x" (by decide)⟩
